import Mathlib

/-!
MemoAI note-ingestion pipeline: a shallow embedding.

This file embeds the batch note-ingestion script of the MemoAI repository
(the PowerShell script `ProcessNotesWithGemini.ps1` shipped in the README):
loading an existing collection, computing the next identifier, the
classification gate, fence stripping of the generated payload, schema
normalization with default fields, identity/order stamping, and the final
sorted save.  Machine strings are `String`/`List Char`; the external
Gemini calls are modelled by their observable results carried in each
input record; JSON deserialization of the generated payload
(`ConvertFrom-Json`, a platform primitive) is a parameter of the pipeline.
-/

namespace MemoAI

/-- Whitespace test used by `[string]::IsNullOrWhiteSpace`, regex class
backslash-s and `String.Trim` in the script (ASCII range: tab, LF, VT, FF,
CR, space). -/
def isWS (c : Char) : Bool :=
  c.toNat == 32 || (9 ≤ c.toNat && c.toNat ≤ 13)

/-- The test `[string]::IsNullOrWhiteSpace` on a non-null string: every
character is whitespace (true on the empty string). -/
def isNullOrWhiteSpace (s : String) : Bool :=
  s.data.all isWS

/-- The test `[string]::IsNullOrWhiteSpace` including the null case: a
missing value counts as blank. -/
def isBlankOpt : Option String → Bool
  | none => true
  | some s => isNullOrWhiteSpace s

/-- Case-insensitive character comparison (PowerShell comparison operators
`-like`, `-replace` and `-match` are case-insensitive by default). -/
def lcEq (a b : Char) : Bool :=
  a.toLower == b.toLower

/-- Case-insensitive "starts with": `ciStarts p s` holds when `p` is a
prefix of `s` up to character case. -/
def ciStarts : List Char → List Char → Bool
  | [], _ => true
  | _ :: _, [] => false
  | p :: ps, c :: cs => lcEq p c && ciStarts ps cs

/-- The regex replacement `-replace '[-_]', ' '` of the title fallback:
every hyphen or underscore becomes a space. -/
def replaceSeps (s : String) : String :=
  String.mk (s.data.map (fun c => if c == '-' || c == '_' then ' ' else c))

/-- One splitting step: the characters up to the first whitespace. -/
def wsWord (l : List Char) : List Char :=
  l.takeWhile (fun c => !isWS c)

/-- The remainder after `wsWord`. -/
def wsRest (l : List Char) : List Char :=
  l.dropWhile (fun c => !isWS c)

/-- Fuelled worker for the whitespace-run split; each step consumes the
next piece together with the whitespace run that ends it, so the length of
the list is always enough fuel. -/
def wsSplitF : Nat → List Char → List String
  | 0, l => [String.mk (wsWord l)]
  | fuel + 1, l =>
    match wsRest l with
    | [] => [String.mk (wsWord l)]
    | _ :: t => String.mk (wsWord l) :: wsSplitF fuel (t.dropWhile isWS)

/-- Regex split `-split '\s+'`: the string is cut at every maximal run of
whitespace.  As with .NET `Regex.Split`, a leading (resp. trailing)
whitespace run produces an empty leading (resp. trailing) piece. -/
def wsSplit (l : List Char) : List String :=
  wsSplitF l.length l

/-- Numeric value of a digit string (the conversion `Measure-Object`
applies to an id that matched the all-digits regex). -/
def digitsToNat (l : List Char) : Nat :=
  l.foldl (fun a c => a * 10 + (c.toNat - 48)) 0

/-- The id filter `$_.id -match '^\d+$'` applied to a possibly missing,
possibly malformed id: a null id stringifies to `""` and fails the match;
otherwise the string must be nonempty and all digits.  On success the
numeric value is returned. -/
def validNumericId : Option String → Option Nat
  | none => none
  | some s =>
    if !s.data.isEmpty && s.data.all Char.isDigit then some (digitsToNat s.data)
    else none

/-- A note as loaded from a pre-existing output file: only its `id` field
matters to the next-id computation, and that field may be absent or hold an
arbitrary string (numeric JSON ids are represented by their decimal digit
string, which is what the regex match stringifies them to). -/
structure StoredNote where
  id : Option String
deriving DecidableEq

/-- The `$nextId` computation of the script:
`if count > 0 { (notes.Where(id -match '^\d+$') | Measure-Object id -Maximum).Maximum + 1 } else { 1 }`.
When the filter keeps no note, `Measure-Object` reports a null maximum and
PowerShell's `$null + 1` yields `1` (the `catch` fallback also yields 1). -/
def nextIdOf (notes : List StoredNote) : Nat :=
  if notes.length > 0 then
    match (notes.filterMap (fun n => validNumericId n.id)).max? with
    | some m => m + 1
    | none => 1
  else 1

/-- The next-id rule as the specification words it: 1 plus the maximum
valid numeric id among the existing notes, ids not matching an all-digit
pattern being excluded; 1 when the collection is empty or no note has a
valid numeric id. -/
def specNextId (notes : List StoredNote) : Nat :=
  let valid := notes.filterMap (fun n => validNumericId n.id)
  if valid.isEmpty then 1 else valid.foldl max 0 + 1

/-- The two shapes of the maximum computation agree: `Measure-Object`'s
optional maximum (null on an empty input, folded otherwise) against a fold
from 0 over the valid ids. -/
theorem max?_succ_eq_foldl (l : List Nat) :
    (match l.max? with | some m => m + 1 | none => 1) =
      (if l.isEmpty then 1 else l.foldl max 0 + 1) := by
  cases l with
  | nil => rfl
  | cons v vs =>
    rw [List.max?_cons']
    simp [Nat.zero_max]

/-- Claim C1: for every existing collection the identifier computed for the
next new note equals 1 plus the maximum valid numeric id among the existing
notes, ids not matching an all-digit pattern being excluded from the
maximum; it equals 1 when the collection is empty or when no note has a
valid numeric id; and the computation is total, so malformed id values
never crash it. -/
theorem nextId_matches_spec (notes : List StoredNote) :
    nextIdOf notes = specNextId notes := by
  unfold nextIdOf specNextId
  cases notes with
  | nil => rfl
  | cons a as =>
    rw [if_pos (by simp)]
    exact max?_succ_eq_foldl _

/-- Helper for the `*` wildcard of `-like`: the rest of the pattern,
decided by `k`, may match after skipping any run of characters. -/
def likeStarAux (k : List Char → Bool) : List Char → Bool
  | [] => k []
  | c :: cs => k (c :: cs) || likeStarAux k cs

/-- PowerShell's `-like` wildcard matching, case-insensitive as by default:
`*` matches any run of characters, `?` any single character, every other
pattern character matches itself up to case.  (The `[...]` range form of
`-like` is not used by the script and is not modelled.) -/
def likeMatch : List Char → List Char → Bool
  | [], s => s.isEmpty
  | p :: ps, s =>
    if p == '*' then likeStarAux (likeMatch ps) s
    else
      match s with
      | [] => false
      | c :: cs => (p == '?' || lcEq p c) && likeMatch ps cs

/-- The classification gate `$classificationResult -like 'Yes*'`: the
extracted, trimmed judgment signal (null when the response carried no text)
against the wildcard pattern `Yes*`.  A null signal compares as the empty
string and is rejected. -/
def classificationAccepts : Option String → Bool
  | none => false
  | some s => likeMatch (("Yes*").data) s.data

/-- The gate's decision rule as the specification words it: accept exactly
when the signal starts with the token `Yes` case-insensitively (content
after the token, such as trailing punctuation or whitespace, is allowed);
any other signal, or the absence of a signal, is rejected. -/
def specYesRule : Option String → Bool
  | none => false
  | some s => ciStarts (("Yes").data) s.data

/-- After the whole pattern has been consumed, a trailing `*` matches any
remaining run of characters. -/
theorem likeStarAux_nil_pattern (s : List Char) :
    likeStarAux (fun t => t.isEmpty) s = true := by
  induction s with
  | nil => rfl
  | cons c cs ih => simp [likeStarAux, ih]

/-- The pattern `Yes*` matches exactly the strings with case-insensitive
prefix `Yes`. -/
theorem likeMatch_yes_star (s : List Char) :
    likeMatch (("Yes*").data) s = ciStarts (("Yes").data) s := by
  show likeMatch ['Y', 'e', 's', '*'] s = ciStarts ['Y', 'e', 's'] s
  match s with
  | [] => rfl
  | [c] => simp [likeMatch, ciStarts]
  | [c, c'] => simp [likeMatch, ciStarts, Bool.and_assoc]
  | c :: c' :: c'' :: rest =>
    simp [likeMatch, ciStarts, likeStarAux_nil_pattern, Bool.and_assoc]

/-- Claim C4: the classification gate accepts a judgment signal exactly
when it starts with the token `Yes` case-insensitively, trailing content
such as punctuation or whitespace after the token being allowed; any other
signal value, and the absence of a signal, is rejected. -/
theorem gate_accepts_iff_yes (sig : Option String) :
    classificationAccepts sig = specYesRule sig := by
  cases sig with
  | none => rfl
  | some s => exact likeMatch_yes_star s.data

/-- The note candidate parsed from the generator's JSON payload
(`$jsonObject`): every field the later steps look at is optional, since the
generator may omit any of them, and any further generated fields are
carried verbatim in `extras`.  `id`, `createdAt` and `order` may also have
been produced by the generator; the stamping step overwrites them. -/
structure Draft where
  id : Option String := none
  createdAt : Option String := none
  order : Option String := none
  title : Option String := none
  text : Option String := none
  status : Option String := none
  priority : Option String := none
  isPrivate : Option Bool := none
  extras : List (String × String) := []
deriving DecidableEq

/-- The `$fallbackTitle` cascade: the file base name with hyphens and
underscores replaced by spaces; if that is blank, the first five pieces of
the regex split `-split '\s+'` of the file content joined by single spaces;
if that is also blank, the literal `Note` followed by the id about to be
stamped. -/
def deriveFallbackTitle (fileBaseName fileContent : String) (nextId : Nat) : String :=
  let t1 := replaceSeps fileBaseName
  if isNullOrWhiteSpace t1 then
    let t2 := String.intercalate (" ") ((wsSplit fileContent.data).take 5)
    if isNullOrWhiteSpace t2 then ("Note ") ++ toString nextId else t2
  else t1

/-- The schema-normalization block: `text` is set to the raw file content
when absent; a title is derived when absent or blank; `status`, `priority`
and `isPrivate` get their defaults when absent; every other field of the
candidate is left untouched. -/
def normalizeFields (j : Draft) (fileContent fileBaseName : String) (nextId : Nat) :
    Draft :=
  { j with
    text := some (j.text.getD fileContent)
    title :=
      match j.title with
      | some t => if isNullOrWhiteSpace t then
            some (deriveFallbackTitle fileBaseName fileContent nextId)
          else some t
      | none => some (deriveFallbackTitle fileBaseName fileContent nextId)
    status := some (j.status.getD ("Open"))
    priority := some (j.priority.getD ("Medium"))
    isPrivate := some (j.isPrivate.getD false) }

/-- The title-derivation rule as claim C5 words it: (a) the naming hint
with hyphens and underscores replaced by spaces, if non-blank after the
replacement; (b) otherwise the first five whitespace-delimited tokens of the
source text joined by single spaces (a token being a maximal nonempty run
of non-whitespace characters); (c) otherwise a synthetic placeholder
incorporating the record's identifier. -/
def specDeriveTitle (fileBaseName fileContent : String) (nextId : Nat) : String :=
  let a := replaceSeps fileBaseName
  if isNullOrWhiteSpace a then
    let tokens := ((wsSplit fileContent.data).filter (fun t => !t.isEmpty)).take 5
    if tokens.isEmpty then ("Note ") ++ toString nextId
    else String.intercalate (" ") tokens
  else a

/-- The title-derivation rule with clause (b) amended to the split the code
performs: the first five pieces of the whitespace-run split of the source
text — a split in which a leading or trailing whitespace run contributes an
empty piece — joined by single spaces, if non-blank; otherwise the
placeholder. -/
def specDeriveTitleAmended (fileBaseName fileContent : String) (nextId : Nat) : String :=
  let a := replaceSeps fileBaseName
  if isNullOrWhiteSpace a then
    let b := String.intercalate (" ") ((wsSplit fileContent.data).take 5)
    if isNullOrWhiteSpace b then ("Note ") ++ toString nextId else b
  else a

/-- Claim C5, counterexample: with a blank naming hint and a source text
that starts with a space, the script joins the first five pieces of the
regex split — whose first piece is empty — and derives the title
`" a b c d"`, not the first five whitespace-delimited tokens
`"a b c d e"` the claim announces. -/
theorem title_fallback_counterexample :
    isBlankOpt (({} : Draft).title) = true ∧
    (normalizeFields {} (" a b c d e f") ("_") 1).title ≠
      some (specDeriveTitle ("_") (" a b c d e f") 1) := by
  decide

/-- Claim C5 (amended): for every candidate whose title is absent or
blank, the derived title follows the priority order (a) naming hint with
hyphens and underscores replaced by spaces, if non-blank; (b) otherwise the
first five pieces of the whitespace-run split of the source text — a split
in which a leading or trailing whitespace run contributes an empty piece —
joined by single spaces, if non-blank; (c) otherwise the placeholder
`Note` followed by the record's identifier. -/
theorem title_fallback_amended (j : Draft) (content hint : String) (nid : Nat)
    (h : isBlankOpt j.title = true) :
    (normalizeFields j content hint nid).title =
      some (specDeriveTitleAmended hint content nid) := by
  cases ht : j.title with
  | none => simp [normalizeFields, ht, specDeriveTitleAmended, deriveFallbackTitle]
  | some t =>
    have hb : isNullOrWhiteSpace t = true := by
      rw [ht] at h
      simpa [isBlankOpt] using h
    simp [normalizeFields, ht, hb, specDeriveTitleAmended, deriveFallbackTitle]

/-- Witness for the amended claim C5 at the scenario of the specification:
file `meeting-notes.txt` containing `Discuss Q3 roadmap` and a generator
payload without a title yield the title `meeting notes`. -/
theorem title_fallback_amended_witness :
    (normalizeFields {} ("Discuss Q3 roadmap") ("meeting-notes") 1).title =
      some (specDeriveTitleAmended ("meeting-notes") ("Discuss Q3 roadmap") 1) :=
  title_fallback_amended {} ("Discuss Q3 roadmap") ("meeting-notes") 1 (by decide)

/-- Claim C6, counterexample: a title that is present but blank does not
pass through unchanged — the normalizer overwrites it with the derived
fallback. -/
theorem normalizer_passthrough_counterexample :
    ({ title := some (" ") } : Draft).title = some (" ") ∧
    (normalizeFields { title := some (" ") } ("src") ("hint") 1).title ≠
      some (" ") := by
  decide

/-- Claim C6 (amended): the normalizer sets `text` to the source text when
absent, `status` to `Open` when absent, `priority` to `Medium` when absent
and `isPrivate` to `false` when absent; every field already present passes
through unchanged — except a present-but-blank title, which is re-derived —
and the fields the normalizer does not handle (`id`, `createdAt`, `order`
and all extra generated fields) are kept verbatim.  The step is a total
function: it fills gaps and never rejects. -/
theorem normalizer_defaults_and_passthrough (j : Draft) (content hint : String)
    (nid : Nat) :
    (j.text = none → (normalizeFields j content hint nid).text = some content) ∧
    (∀ t, j.text = some t → (normalizeFields j content hint nid).text = some t) ∧
    (j.status = none → (normalizeFields j content hint nid).status = some ("Open")) ∧
    (∀ s, j.status = some s → (normalizeFields j content hint nid).status = some s) ∧
    (j.priority = none →
      (normalizeFields j content hint nid).priority = some ("Medium")) ∧
    (∀ p, j.priority = some p →
      (normalizeFields j content hint nid).priority = some p) ∧
    (j.isPrivate = none →
      (normalizeFields j content hint nid).isPrivate = some false) ∧
    (∀ b, j.isPrivate = some b →
      (normalizeFields j content hint nid).isPrivate = some b) ∧
    (∀ t, j.title = some t → isNullOrWhiteSpace t = false →
      (normalizeFields j content hint nid).title = some t) ∧
    (normalizeFields j content hint nid).id = j.id ∧
    (normalizeFields j content hint nid).createdAt = j.createdAt ∧
    (normalizeFields j content hint nid).order = j.order ∧
    (normalizeFields j content hint nid).extras = j.extras := by
  refine ⟨fun h => by simp [normalizeFields, h],
    fun t h => by simp [normalizeFields, h],
    fun h => by simp [normalizeFields, h],
    fun s h => by simp [normalizeFields, h],
    fun h => by simp [normalizeFields, h],
    fun p h => by simp [normalizeFields, h],
    fun h => by simp [normalizeFields, h],
    fun b h => by simp [normalizeFields, h],
    fun t h hb => by simp [normalizeFields, h, hb],
    rfl, rfl, rfl, rfl⟩

/-- Witness for the amended claim C6: on a candidate with no fields at all
the normalizer fills in the source text. -/
theorem normalizer_defaults_witness :
    (normalizeFields {} ("hello world") ("note-1") 3).text = some ("hello world") :=
  (normalizer_defaults_and_passthrough {} ("hello world") ("note-1") 3).1 rfl

/-- A candidate with all six required fields populated: `id`, `title`,
`text`, `status`, `priority` and `isPrivate` are present, and the title
carries an actual value (it is not blank, which the normalizer would treat
as missing). -/
def isComplete (j : Draft) : Bool :=
  j.id.isSome && j.title.isSome && !isBlankOpt j.title && j.text.isSome &&
    j.status.isSome && j.priority.isSome && j.isPrivate.isSome

/-- Claim C8: the schema normalizer is idempotent — applied to an
already-complete note record it yields the same record unchanged. -/
theorem normalizer_idempotent_on_complete (j : Draft) (content hint : String)
    (nid : Nat) (h : isComplete j = true) :
    normalizeFields j content hint nid = j := by
  cases j with
  | mk idv cav orv tiv txv stv prv ipv exv =>
    cases tiv with
    | none => simp [isComplete, isBlankOpt] at h
    | some t =>
      cases txv with
      | none => simp [isComplete] at h
      | some x =>
        cases stv with
        | none => simp [isComplete] at h
        | some s =>
          cases prv with
          | none => simp [isComplete] at h
          | some p =>
            cases ipv with
            | none => simp [isComplete] at h
            | some b =>
              simp [isComplete, isBlankOpt] at h
              simp [normalizeFields, h.2]

/-- A concrete fully-populated note record. -/
def completeDraftExample : Draft :=
  { id := some ("3"), createdAt := some ("2024-08-16T10:00:00.000Z"),
    order := some ("0"), title := some ("Groceries"), text := some ("milk, eggs"),
    status := some ("Open"), priority := some ("High"), isPrivate := some true,
    extras := [(("dueDate"), ("2024-09-01"))] }

/-- Witness for claim C8 at a concrete complete record. -/
theorem normalizer_idempotent_witness :
    normalizeFields completeDraftExample ("c") ("h") 9 = completeDraftExample :=
  normalizer_idempotent_on_complete completeDraftExample ("c") ("h") 9 (by decide)

/-- The opening fence literal of the first `-replace`: three backticks
followed by `json`. -/
def fenceJson : List Char := ['`', '`', '`', 'j', 's', 'o', 'n']

/-- The closing fence literal of the second `-replace`: three backticks. -/
def fenceTicks : List Char := ['`', '`', '`']

/-- The first cleanup `-replace '^\s*```json\s*', ''`: when the string
begins with optional whitespace, the literal ` ```json ` (compared
case-insensitively, as `-replace` is by default) and optional whitespace,
that prefix is removed; otherwise the string is unchanged. -/
def stripLeadingJsonFence (l : List Char) : List Char :=
  let t := l.dropWhile isWS
  if ciStarts fenceJson t then (t.drop 7).dropWhile isWS else l

/-- The second cleanup `-replace '\s*```\s*$', ''`: when the string ends
with optional whitespace, the literal ` ``` ` and optional whitespace, that
suffix (with the whole whitespace run before the backticks) is removed;
otherwise the string is unchanged. -/
def stripTrailingFence (l : List Char) : List Char :=
  let t := l.reverse.dropWhile isWS
  if ciStarts fenceTicks t then ((t.drop 3).dropWhile isWS).reverse else l

/-- Both cleanup replacements, in the order the script applies them. -/
def stripFences (s : String) : String :=
  String.mk (stripTrailingFence (stripLeadingJsonFence s.data))

/-- A case-insensitive prefix check accepts a literal prefix of the very
string. -/
theorem ciStarts_append_self (l r : List Char) : ciStarts l (l ++ r) = true := by
  induction l with
  | nil => rfl
  | cons c cs ih => simp [ciStarts, lcEq, ih]

/-- Dropping a whitespace prefix leaves a list whose first element is not
whitespace untouched. -/
theorem dropWhile_eq_self_of_head (l : List Char) (c : Char)
    (h : l.head? = some c) (hc : isWS c = false) : l.dropWhile isWS = l := by
  cases l with
  | nil => simp at h
  | cons a t =>
    have : a = c := by simpa using h
    subst this
    simp [List.dropWhile_cons, hc]

/-- Dropping the seven characters of the opening fence from a string that
starts with it. -/
theorem drop7_fenceJson (r : List Char) : (fenceJson ++ r).drop 7 = r := by
  rw [show (7 : Nat) = fenceJson.length from rfl, List.drop_left]

/-- Dropping the three characters of the closing fence from a string that
starts with it. -/
theorem drop3_fenceTicks (r : List Char) : (fenceTicks ++ r).drop 3 = r := by
  rw [show (3 : Nat) = fenceTicks.length from rfl, List.drop_left]

/-- Claim C7, counterexample: a valid JSON object wrapped in plain
formatting fences without the `json` language tag is not unwrapped — only
the trailing fence is removed, so the parser receives a string still
carrying the opening fence, the parse fails and the item is dropped. -/
theorem fence_stripping_counterexample :
    stripFences ("```\x0a\x7b\x22a\x22:1\x7d\x0a```") = ("```\x0a\x7b\x22a\x22:1\x7d") ∧
    stripFences ("```\x0a\x7b\x22a\x22:1\x7d\x0a```") ≠ ("\x7b\x22a\x22:1\x7d") := by
  decide

/-- Claim C7 (amended): a generator payload that is a JSON object — it
starts with an opening brace and ends with a closing brace — wrapped in a
leading ` ```json ` fence and a trailing ` ``` ` fence is stripped back to
exactly the payload before parsing, so it is parsed as if it had arrived
bare.  (A bare leading ` ``` ` fence without the `json` tag is not
stripped; such payloads fail to parse and are dropped.) -/
theorem fence_stripping_amended (p : List Char)
    (h1 : p.head? = some (Char.ofNat 123)) (h2 : p.getLast? = some (Char.ofNat 125)) :
    stripTrailingFence (stripLeadingJsonFence
      (fenceJson ++ ('\x0a' :: (p ++ ('\x0a' :: fenceTicks))))) = p := by
  obtain ⟨p0, ptl, rfl⟩ : ∃ c t, p = c :: t := by
    cases p with
    | nil => simp at h1
    | cons c t => exact ⟨c, t, rfl⟩
  have hp0 : p0 = Char.ofNat 123 := by simpa using h1
  subst hp0
  have step1 : stripLeadingJsonFence
      (fenceJson ++ ('\x0a' :: ((Char.ofNat 123 :: ptl) ++ ('\x0a' :: fenceTicks)))) =
      (Char.ofNat 123 :: ptl) ++ ('\x0a' :: fenceTicks) := by
    simp only [stripLeadingJsonFence]
    rw [dropWhile_eq_self_of_head
      (fenceJson ++ ('\x0a' :: ((Char.ofNat 123 :: ptl) ++ ('\x0a' :: fenceTicks))))
      '`' rfl (by decide)]
    simp only [ciStarts_append_self, eq_self_iff_true, if_true]
    rw [drop7_fenceJson, List.dropWhile_cons]
    simp only [show isWS '\x0a' = true from by decide, if_true]
    exact dropWhile_eq_self_of_head
      ((Char.ofNat 123 :: ptl) ++ ('\x0a' :: fenceTicks)) (Char.ofNat 123) rfl
      (by decide)
  rw [step1]
  have hrev : ((Char.ofNat 123 :: ptl) ++ ('\x0a' :: fenceTicks)).reverse =
      fenceTicks ++ ('\x0a' :: (Char.ofNat 123 :: ptl).reverse) := by
    rw [List.reverse_append,
      show (('\x0a' :: fenceTicks : List Char)).reverse = fenceTicks ++ ['\x0a']
        from rfl,
      List.append_assoc]
    rfl
  obtain ⟨d0, u0, hu⟩ : ∃ d u, (Char.ofNat 123 :: ptl).reverse = d :: u := by
    cases hh : (Char.ofNat 123 :: ptl).reverse with
    | nil => simpa using congrArg List.length hh
    | cons d u => exact ⟨d, u, rfl⟩
  have hd0 : d0 = Char.ofNat 125 := by
    have hh : (Char.ofNat 123 :: ptl).reverse.head? = some (Char.ofNat 125) := by
      rw [List.head?_reverse]
      exact h2
    rw [hu] at hh
    simpa using hh
  subst hd0
  simp only [stripTrailingFence]
  rw [hrev, dropWhile_eq_self_of_head
    (fenceTicks ++ ('\x0a' :: (Char.ofNat 123 :: ptl).reverse)) '`' rfl (by decide)]
  simp only [ciStarts_append_self, eq_self_iff_true, if_true]
  rw [drop3_fenceTicks, List.dropWhile_cons]
  simp only [show isWS '\x0a' = true from by decide, if_true]
  rw [hu, dropWhile_eq_self_of_head (Char.ofNat 125 :: u0) (Char.ofNat 125) rfl
    (by decide), ← hu, List.reverse_reverse]

/-- Witness for the amended claim C7: a concrete fenced JSON object is
unwrapped back to exactly the payload. -/
theorem fence_stripping_amended_witness :
    stripTrailingFence (stripLeadingJsonFence
      (fenceJson ++ ('\x0a' :: (("\x7b\x22a\x22:1\x7d").data ++ ('\x0a' :: fenceTicks))))) =
      ("\x7b\x22a\x22:1\x7d").data :=
  fence_stripping_amended (("\x7b\x22a\x22:1\x7d").data) (by decide) (by decide)

/-- A completed note as appended to `$allNotes`: the stamped fields plus
the normalized candidate fields (after normalization all of them are
populated, so they are plain values here). -/
structure Note where
  id : Nat
  createdAt : String
  order : Nat
  title : String
  text : String
  status : String
  priority : String
  isPrivate : Bool
  extras : List (String × String)
deriving DecidableEq

/-- The stamping of the core fields: `id` and `createdAt` are added with
`-Force` before normalization and `order` after it, each overwriting any
value the generator may have produced for them. -/
def completeNote (nid order : Nat) (createdAt : String) (j : Draft) : Note :=
  { id := nid, createdAt := createdAt, order := order,
    title := j.title.getD (""), text := j.text.getD (""),
    status := j.status.getD (""), priority := j.priority.getD (""),
    isPrivate := j.isPrivate.getD false, extras := j.extras }

/-- The mutable state the loop threads through a run: the list of notes
added so far in this run and the two counters. -/
structure PipeState where
  notes : List Note
  nextId : Nat
  currentOrder : Nat
deriving DecidableEq

/-- One input file together with the observable results of its two
external calls: `classification` is the trimmed text extracted from the
classification response (none when the call failed or carried no text) and
`generated` is the trimmed text extracted from the generation response
(none when that call failed or carried no text). -/
structure FileInput where
  content : String
  baseName : String
  fileDate : String
  classification : Option String
  generated : Option String
deriving DecidableEq

/-- What processing one file produced: the state afterwards, how many
external API calls were made for this file, and the note appended, if
any. -/
structure StepResult where
  state : PipeState
  apiCalls : Nat
  added : Option Note
deriving DecidableEq

/-- The body of the `foreach ($file in $txtFiles)` loop for one file,
parameterized by `parse`, the `ConvertFrom-Json` platform primitive
(returning none exactly when its argument is not valid JSON): skip empty
files before any API call; make the classification call; if the gate
rejects, stop; otherwise make the generation call; if it yields no usable
payload or the payload does not parse after fence stripping, stop;
otherwise normalize, stamp `id`, `createdAt` and `order`, append the note
and advance both counters. -/
def ingestFile (parse : String → Option Draft) (st : PipeState) (f : FileInput) :
    StepResult :=
  if isNullOrWhiteSpace f.content then
    { state := st, apiCalls := 0, added := none }
  else if classificationAccepts f.classification then
    match f.generated with
    | none => { state := st, apiCalls := 2, added := none }
    | some raw =>
      if isNullOrWhiteSpace raw then { state := st, apiCalls := 2, added := none }
      else
        match parse (stripFences raw) with
        | none => { state := st, apiCalls := 2, added := none }
        | some j =>
          let nj := normalizeFields j f.content f.baseName st.nextId
          let note := completeNote st.nextId st.currentOrder f.fileDate nj
          { state :=
              { notes := st.notes ++ [note],
                nextId := st.nextId + 1,
                currentOrder := st.currentOrder + 1 },
            apiCalls := 2, added := some note }
  else { state := st, apiCalls := 1, added := none }

/-- The whole run over a list of inputs: the final state. -/
def runIngest (parse : String → Option Draft) (st : PipeState) :
    List FileInput → PipeState
  | [] => st
  | f :: fs => runIngest parse (ingestFile parse st f).state fs

/-- The notes added during a run, in the order they were appended. -/
def addedNotes (parse : String → Option Draft) (st : PipeState) :
    List FileInput → List Note
  | [] => []
  | f :: fs =>
    (ingestFile parse st f).added.toList ++
      addedNotes parse (ingestFile parse st f).state fs

/-- The generation step yields nothing usable for input `f`: the payload is
absent, blank, or fails to parse after fence stripping. -/
def payloadUnusable (parse : String → Option Draft) (f : FileInput) : Bool :=
  match f.generated with
  | none => true
  | some raw => isNullOrWhiteSpace raw || (parse (stripFences raw)).isNone

/-- Claim C3: when the classification gate rejects an input, and when an
accepted input's generator payload is absent or unparsable, no note is
appended and the pipeline state — including both counters `nextId` and
`currentOrder` — is left exactly as it was. -/
theorem skip_preserves_state (parse : String → Option Draft) (st : PipeState)
    (f : FileInput)
    (h : classificationAccepts f.classification = false ∨
      payloadUnusable parse f = true) :
    (ingestFile parse st f).state = st ∧ (ingestFile parse st f).added = none := by
  unfold ingestFile
  by_cases hempty : isNullOrWhiteSpace f.content = true
  · simp [hempty]
  · simp only [hempty]
    rcases h with h | h
    · simp [h]
    · by_cases hacc : classificationAccepts f.classification = true
      · simp only [hacc, if_true, if_false]
        cases hg : f.generated with
        | none => simp
        | some raw =>
          simp only [payloadUnusable, hg, Bool.or_eq_true] at h
          rcases h with h | h
          · simp [h]
          · by_cases hblank : isNullOrWhiteSpace raw = true
            · simp [hblank]
            · simp only [hblank, Option.isNone_iff_eq_none] at h ⊢
              simp [h]
      · simp [hacc]

/-- Witness for claim C3: a concrete rejected input (the classifier said
`No`) leaves a concrete state untouched. -/
theorem skip_preserves_state_witness :
    (ingestFile (fun _ => none) { notes := [], nextId := 4, currentOrder := 0 }
      { content := ("buy milk"), baseName := ("list"), fileDate := ("d"),
        classification := some ("No"), generated := none }).state =
      { notes := [], nextId := 4, currentOrder := 0 } ∧
    (ingestFile (fun _ => none) { notes := [], nextId := 4, currentOrder := 0 }
      { content := ("buy milk"), baseName := ("list"), fileDate := ("d"),
        classification := some ("No"), generated := none }).added = none :=
  skip_preserves_state (fun _ => none) { notes := [], nextId := 4, currentOrder := 0 }
    { content := ("buy milk"), baseName := ("list"), fileDate := ("d"),
      classification := some ("No"), generated := none }
    (Or.inr (by decide))

/-- Claim C9: an input whose text is blank after trimming is skipped before
any external call — zero API calls, no note, state unchanged. -/
theorem empty_input_skipped (parse : String → Option Draft) (st : PipeState)
    (f : FileInput) (h : isNullOrWhiteSpace f.content = true) :
    ingestFile parse st f = { state := st, apiCalls := 0, added := none } := by
  unfold ingestFile
  simp [h]

/-- Witness for claim C9: a whitespace-only file is skipped with zero API
calls on a concrete state. -/
theorem empty_input_skipped_witness :
    ingestFile (fun _ => none) { notes := [], nextId := 1, currentOrder := 0 }
      { content := ("  \x0a "), baseName := ("empty"), fileDate := ("d"),
        classification := some ("Yes"), generated := none } =
      { state := { notes := [], nextId := 1, currentOrder := 0 }, apiCalls := 0,
        added := none } :=
  empty_input_skipped (fun _ => none) { notes := [], nextId := 1, currentOrder := 0 }
    { content := ("  \x0a "), baseName := ("empty"), fileDate := ("d"),
      classification := some ("Yes"), generated := none } (by decide)

/-- Each loop iteration either skips its input and leaves the state
untouched, or appends exactly one note stamped with the current counters
and advances both counters by one. -/
theorem ingestFile_cases (parse : String → Option Draft) (st : PipeState)
    (f : FileInput) :
    ((ingestFile parse st f).state = st ∧ (ingestFile parse st f).added = none) ∨
    (∃ n : Note, (ingestFile parse st f).added = some n ∧ n.id = st.nextId ∧
      n.order = st.currentOrder ∧
      (ingestFile parse st f).state =
        { notes := st.notes ++ [n], nextId := st.nextId + 1,
          currentOrder := st.currentOrder + 1 }) := by
  unfold ingestFile
  by_cases h1 : isNullOrWhiteSpace f.content = true
  · left
    simp [h1]
  · simp only [h1, if_false]
    by_cases hacc : classificationAccepts f.classification = true
    · simp only [hacc, if_true]
      cases hg : f.generated with
      | none => left; simp
      | some raw =>
        by_cases hblank : isNullOrWhiteSpace raw = true
        · left
          simp [hblank]
        · simp only [hblank, if_false]
          cases hp : parse (stripFences raw) with
          | none => left; simp
          | some j => right; exact ⟨_, rfl, rfl, rfl, rfl⟩
    · left
      simp [hacc]

/-- Counter/stamping invariant of a run, for an arbitrary starting state:
the k-th note added during the run carries `order` equal to the starting
order plus k and `id` equal to the starting id plus k, and each final
counter equals its starting value plus the number of added notes. -/
theorem run_stamping (parse : String → Option Draft) (files : List FileInput) :
    ∀ st : PipeState,
      (∀ k, ∀ hk : k < (addedNotes parse st files).length,
        ((addedNotes parse st files).get ⟨k, hk⟩).order = st.currentOrder + k ∧
        ((addedNotes parse st files).get ⟨k, hk⟩).id = st.nextId + k) ∧
      (runIngest parse st files).nextId =
        st.nextId + (addedNotes parse st files).length ∧
      (runIngest parse st files).currentOrder =
        st.currentOrder + (addedNotes parse st files).length := by
  induction files with
  | nil =>
    intro st
    refine ⟨fun k hk => absurd hk (by simp [addedNotes]), by simp [runIngest, addedNotes],
      by simp [runIngest, addedNotes]⟩
  | cons f fs ih =>
    intro st
    rcases ingestFile_cases parse st f with ⟨hs, ha⟩ | ⟨n, ha, hid, hord, hs⟩
    · have e1 : addedNotes parse st (f :: fs) = addedNotes parse st fs := by
        simp [addedNotes, ha, hs]
      have e2 : runIngest parse st (f :: fs) = runIngest parse st fs := by
        simp [runIngest, hs]
      rw [e1, e2]
      exact ih st
    · have e1 : addedNotes parse st (f :: fs) =
          n :: addedNotes parse (ingestFile parse st f).state fs := by
        simp [addedNotes, ha]
      have e2 : runIngest parse st (f :: fs) =
          runIngest parse (ingestFile parse st f).state fs := by
        simp [runIngest]
      obtain ⟨ihk, ihn, iho⟩ := ih (ingestFile parse st f).state
      rw [e1, e2]
      refine ⟨?_, ?_, ?_⟩
      · intro k hk
        match k with
        | 0 => exact ⟨by simpa using hord, by simpa using hid⟩
        | k + 1 =>
          have hk' : k < (addedNotes parse (ingestFile parse st f).state fs).length := by
            simpa using hk
          obtain ⟨ho, hi⟩ := ihk k hk'
          have hco : (ingestFile parse st f).state.currentOrder =
              st.currentOrder + 1 := by rw [hs]
          have hni : (ingestFile parse st f).state.nextId = st.nextId + 1 := by
            rw [hs]
          rw [hco] at ho
          rw [hni] at hi
          constructor
          · have ho2 : ((n :: addedNotes parse (ingestFile parse st f).state fs).get
                ⟨k + 1, hk⟩).order = st.currentOrder + 1 + k := ho
            omega
          · have hi2 : ((n :: addedNotes parse (ingestFile parse st f).state fs).get
                ⟨k + 1, hk⟩).id = st.nextId + 1 + k := hi
            omega
      · rw [ihn, hs]
        simp
        omega
      · rw [iho, hs]
        simp
        omega

/-- Claim C10: within a single run starting with `currentOrder = 0`, the
k-th successfully added note (0-based) is stamped `order = k` and
`id = initial nextId + k` — consecutive values, no gaps, no matter how many
intervening inputs were rejected or failed — because both counters advance
exactly once, and only on a successful append; and at the end of the run
each counter has advanced by exactly the number of added notes. -/
theorem run_ids_orders_consecutive (parse : String → Option Draft) (st : PipeState)
    (files : List FileInput) (h0 : st.currentOrder = 0) :
    (∀ k, ∀ hk : k < (addedNotes parse st files).length,
      ((addedNotes parse st files).get ⟨k, hk⟩).order = k ∧
      ((addedNotes parse st files).get ⟨k, hk⟩).id = st.nextId + k) ∧
    (runIngest parse st files).nextId =
      st.nextId + (addedNotes parse st files).length ∧
    (runIngest parse st files).currentOrder = (addedNotes parse st files).length := by
  obtain ⟨hk, hn, ho⟩ := run_stamping parse files st
  refine ⟨fun k hkk => ?_, hn, ?_⟩
  · obtain ⟨h1, h2⟩ := hk k hkk
    rw [h0, Nat.zero_add] at h1
    exact ⟨h1, h2⟩
  · rw [ho, h0, Nat.zero_add]

/-- A parser that accepts everything, returning the empty candidate: used
to drive concrete runs. -/
def alwaysDraft : String → Option Draft := fun _ => some {}

/-- A concrete three-input run: two inputs are classified `Yes`, the one
between them is classified `No`. -/
def sampleRunInputs : List FileInput :=
  [{ content := ("Buy milk"), baseName := ("a"), fileDate := ("d1"),
     classification := some ("Yes"), generated := some ("\x7b\x7d") },
   { content := ("Spam mail"), baseName := ("b"), fileDate := ("d2"),
     classification := some ("No"), generated := none },
   { content := ("Call mom"), baseName := ("c"), fileDate := ("d3"),
     classification := some ("Yes."), generated := some ("\x7b\x7d") }]

/-- Witness for claim C10: in the concrete run the second added note (the
third input, after a rejected one) is stamped `order = 1` and
`id = 7 + 1`. -/
theorem run_ids_orders_consecutive_witness :
    ((addedNotes alwaysDraft { notes := [], nextId := 7, currentOrder := 0 }
        sampleRunInputs).get ⟨1, by decide⟩).order = 1 ∧
    ((addedNotes alwaysDraft { notes := [], nextId := 7, currentOrder := 0 }
        sampleRunInputs).get ⟨1, by decide⟩).id = 7 + 1 :=
  (run_ids_orders_consecutive alwaysDraft
    { notes := [], nextId := 7, currentOrder := 0 } sampleRunInputs rfl).1 1 (by decide)

/-- Sort order used by `Sort-Object -Property id`: ascending note id. -/
def noteLe (a b : Note) : Prop := a.id ≤ b.id

instance : DecidableRel noteLe := fun a b => Nat.decLe a.id b.id

instance : IsTotal Note noteLe := ⟨fun a b => Nat.le_total a.id b.id⟩

instance : IsTrans Note noteLe := ⟨fun _ _ _ => Nat.le_trans⟩

/-- The sort `$allNotes | Sort-Object -Property id`: a stable sort by
ascending id (insertion sort is stable, like `Sort-Object`). -/
def sortById (notes : List Note) : List Note :=
  List.insertionSort noteLe notes

/-- The JSON value the saved text represents: either an array of note
objects or — the shape PowerShell's pipeline produces for a single
element — one bare note object. -/
inductive JsonShape where
  | jarray (notes : List Note)
  | jobject (n : Note)
deriving DecidableEq

/-- The serialization `$sortedNotes | ConvertTo-Json`: the pipeline enumerates the
collection, so `ConvertTo-Json` receives the elements one by one; with two
or more elements (or none) it serializes a JSON array, but a single
element is serialized as a bare JSON object. -/
def convertToJsonPipeline : List Note → JsonShape
  | [n] => JsonShape.jobject n
  | ns => JsonShape.jarray ns

/-- The save block at the end of the script: when the in-memory collection
is nonempty, sort by id and write `ConvertTo-Json`'s output; when it is
empty, write a literal `[]` only if no output file exists, and otherwise
leave the destination untouched (`none` = nothing written). -/
def saveStep (allNotes : List Note) (outputExists : Bool) : Option JsonShape :=
  if allNotes.length > 0 then some (convertToJsonPipeline (sortById allNotes))
  else if !outputExists then some (JsonShape.jarray []) else none

/-- Does the save outcome consist of writing a JSON array? -/
def isJsonArrayOutput : Option JsonShape → Bool
  | some (JsonShape.jarray _) => true
  | _ => false

/-- A concrete saved note. -/
def sampleNote : Note :=
  { id := 1, createdAt := ("2024-08-16T10:00:00.000Z"), order := 0,
    title := ("meeting notes"), text := ("Discuss Q3 roadmap"),
    status := ("Open"), priority := ("Medium"), isPrivate := false, extras := [] }

/-- A second concrete saved note, with a larger id. -/
def sampleNote5 : Note :=
  { id := 5, createdAt := ("2024-08-16T11:00:00.000Z"), order := 1,
    title := ("groceries"), text := ("milk"), status := ("Open"),
    priority := ("High"), isPrivate := true, extras := [] }

/-- Claim C2, counterexample: a collection holding exactly one note is not
persisted as a single JSON array — the pipeline serializes the lone
element as a bare JSON object (the load path of the script even
anticipates this: it handles a "potential single object JSON file"). -/
theorem save_single_note_counterexample :
    saveStep [sampleNote] false = some (JsonShape.jobject sampleNote) ∧
    isJsonArrayOutput (saveStep [sampleNote] false) = false := by
  decide

/-- A list that does not have exactly one element is serialized by the
pipeline as a JSON array. -/
theorem convertToJsonPipeline_eq_jarray (l : List Note) (h : l.length ≠ 1) :
    convertToJsonPipeline l = JsonShape.jarray l := by
  match l with
  | [] => rfl
  | [a] => exact absurd rfl h
  | a :: b :: t => rfl

/-- Claim C2 (amended): after a completed run, a collection of two or more
notes is persisted as a single JSON array holding the full collection
sorted ascending by `id`; a collection of exactly one note is persisted as
a bare JSON object rather than a one-element array; an empty collection
causes an empty JSON array to be written when no destination file existed,
and leaves the destination untouched otherwise. -/
theorem save_shapes (notes : List Note) (outputExists : Bool) :
    (2 ≤ notes.length →
      saveStep notes outputExists = some (JsonShape.jarray (sortById notes)) ∧
      List.Sorted noteLe (sortById notes) ∧ (sortById notes).Perm notes) ∧
    (∀ n, notes = [n] → saveStep notes outputExists = some (JsonShape.jobject n)) ∧
    (notes = [] → outputExists = false →
      saveStep notes outputExists = some (JsonShape.jarray [])) ∧
    (notes = [] → outputExists = true → saveStep notes outputExists = none) := by
  refine ⟨fun h2 => ?_, fun n hn => ?_, fun hnil hex => ?_, fun hnil hex => ?_⟩
  · have hlen : (sortById notes).length = notes.length :=
      (List.perm_insertionSort noteLe notes).length_eq
    have hpos : notes.length > 0 := by omega
    refine ⟨?_, List.sorted_insertionSort noteLe notes,
      List.perm_insertionSort noteLe notes⟩
    unfold saveStep
    rw [if_pos hpos, convertToJsonPipeline_eq_jarray _ (by omega)]
  · subst hn
    rfl
  · subst hnil hex
    rfl
  · subst hnil hex
    rfl

/-- Witness for the amended claim C2: a concrete two-note collection is
saved as the sorted JSON array. -/
theorem save_shapes_witness :
    saveStep [sampleNote5, sampleNote] true =
      some (JsonShape.jarray (sortById [sampleNote5, sampleNote])) ∧
    List.Sorted noteLe (sortById [sampleNote5, sampleNote]) ∧
    (sortById [sampleNote5, sampleNote]).Perm [sampleNote5, sampleNote] :=
  (save_shapes [sampleNote5, sampleNote] true).1 (by decide)

end MemoAI
